import Mathlib

/-!
# Verification of the secure-password vault core

A shallow embedding of the repository's vault cryptographic session
(`src/utils/crypto.ts`, `src/utils/storage.ts`, and the `useVault` hook) in
Lean 4, together with proofs and refutations of the specification's claims.

Modelling conventions:
* JavaScript strings are modelled as lists of Unicode scalar values
  (`JSString := List Nat`); byte buffers (`Uint8Array`/`ArrayBuffer`) as lists
  of naturals below 256.
* Platform primitives (Web Crypto `importKey`/`deriveKey`/AES-GCM,
  `TextEncoder`/`TextDecoder`, `btoa`/`atob`, `JSON.stringify`/`JSON.parse`)
  are not repository code; they are modelled as executable idealizations that
  are faithful to their interface contracts: PBKDF2 as a deterministic
  injective KDF, AES-GCM as an authenticated cipher whose decryption succeeds
  exactly on ciphertexts produced under the same key and nonce, the text codec
  as real UTF-8, and the base64 codec as real base64 with padding.
* Randomness (`crypto.getRandomValues`, `generateKey`, `randomUUID`) is passed
  in as explicit parameters.
-/

namespace SecurePassword

set_option maxRecDepth 100000

/-- A JavaScript string, modelled as its sequence of Unicode scalar values. -/
abbrev JSString := List Nat

/-! ## Prefix-free serialization of naturals and lists

Used to build the idealized AEAD ciphertext format (a byte-level encoding of
key, nonce and plaintext) and the idealized `JSON.stringify` for entries.
Each natural is written as its little-endian base-255 digits followed by the
terminator byte 255, so every encoded value is a byte below 256 and the
encoding is prefix-free. -/

/-- Little-endian base-255 digits of `n`, computed with explicit fuel so that
the definition is structurally recursive (and hence kernel-reducible). -/
def natToB255Aux : Nat → Nat → List Nat
  | 0, n => [n]
  | fuel + 1, n => if n < 255 then [n] else n % 255 :: natToB255Aux fuel (n / 255)

/-- Serialize a natural: base-255 digits then the terminator byte 255. -/
def encodeNat (n : Nat) : List Nat :=
  natToB255Aux n n ++ [255]

/-- Parse one serialized natural, returning it with the unread remainder. -/
def decodeNat : List Nat → Option (Nat × List Nat)
  | [] => none
  | b :: rest =>
    if b = 255 then some (0, rest)
    else
      match decodeNat rest with
      | some (v, r) => some (b + 255 * v, r)
      | none => none

/-- Serialize a list of naturals: its length, then each element. -/
def encodeList (l : List Nat) : List Nat :=
  encodeNat l.length ++ l.flatMap encodeNat

/-- Parse exactly `k` serialized naturals. -/
def decodeCount : Nat → List Nat → Option (List Nat × List Nat)
  | 0, r => some ([], r)
  | k + 1, r =>
    match decodeNat r with
    | some (v, r2) =>
      match decodeCount k r2 with
      | some (vs, r3) => some (v :: vs, r3)
      | none => none
    | none => none

/-- Parse one serialized list of naturals. -/
def decodeList (r : List Nat) : Option (List Nat × List Nat) :=
  match decodeNat r with
  | some (k, r2) => decodeCount k r2
  | none => none

theorem decodeNat_natToB255Aux (fuel : Nat) :
    ∀ n r, n ≤ fuel → decodeNat (natToB255Aux fuel n ++ 255 :: r) = some (n, r) := by
  induction fuel with
  | zero =>
    intro n r hn
    have : n = 0 := Nat.le_zero.mp hn
    subst this
    simp [natToB255Aux, decodeNat]
  | succ fuel ih =>
    intro n r hn
    by_cases h : n < 255
    · simp [natToB255Aux, h, decodeNat]
      omega
    · have hdigit : n % 255 ≠ 255 := by omega
      have hfuel : n / 255 ≤ fuel := by omega
      simp only [natToB255Aux, if_neg h, List.cons_append, decodeNat, if_neg hdigit]
      rw [ih (n / 255) r hfuel]
      have : n % 255 + 255 * (n / 255) = n := by omega
      simp [this]

theorem decodeNat_encodeNat (n : Nat) (r : List Nat) :
    decodeNat (encodeNat n ++ r) = some (n, r) := by
  simpa [encodeNat] using decodeNat_natToB255Aux n n r (Nat.le_refl n)

theorem decodeCount_flatMap (l : List Nat) :
    ∀ r, decodeCount l.length (l.flatMap encodeNat ++ r) = some (l, r) := by
  induction l with
  | nil => intro r; simp [decodeCount]
  | cons a l ih =>
    intro r
    simp only [List.length_cons, List.flatMap_cons, List.append_assoc, decodeCount]
    rw [decodeNat_encodeNat]
    dsimp only
    rw [ih r]

theorem decodeList_encodeList (l : List Nat) (r : List Nat) :
    decodeList (encodeList l ++ r) = some (l, r) := by
  simp only [encodeList, decodeList, List.append_assoc]
  rw [decodeNat_encodeNat]
  exact decodeCount_flatMap l r

theorem encodeList_injective {a b : List Nat} (h : encodeList a = encodeList b) :
    a = b := by
  have ha := decodeList_encodeList a []
  have hb := decodeList_encodeList b []
  rw [h] at ha
  rw [ha] at hb
  exact (Prod.mk.injEq _ _ _ _).mp (Option.some.inj hb) |>.1

theorem encodeList_append_injective {a b c d : List Nat}
    (h : encodeList a ++ encodeList c = encodeList b ++ encodeList d) :
    a = b ∧ c = d := by
  have ha := decodeList_encodeList a (encodeList c ++ [])
  have hb := decodeList_encodeList b (encodeList d ++ [])
  rw [← List.append_assoc] at ha hb
  rw [h] at ha
  rw [ha] at hb
  have hp := (Prod.mk.injEq _ _ _ _).mp (Option.some.inj hb)
  refine ⟨hp.1, ?_⟩
  have := hp.2
  have hc := decodeList_encodeList c ([] : List Nat)
  have hd := decodeList_encodeList d ([] : List Nat)
  rw [this] at hc
  rw [hc] at hd
  exact (Prod.mk.injEq _ _ _ _).mp (Option.some.inj hd) |>.1

theorem natToB255Aux_lt (fuel : Nat) :
    ∀ n, n ≤ fuel → ∀ x ∈ natToB255Aux fuel n, x < 256 := by
  induction fuel with
  | zero =>
    intro n hn x hx
    have : n = 0 := Nat.le_zero.mp hn
    subst this
    simp [natToB255Aux] at hx
    omega
  | succ fuel ih =>
    intro n hn x hx
    by_cases h : n < 255
    · simp [natToB255Aux, h] at hx
      omega
    · simp only [natToB255Aux, if_neg h, List.mem_cons] at hx
      rcases hx with hx | hx
      · omega
      · exact ih (n / 255) (by omega) x hx

theorem encodeNat_lt (n : Nat) : ∀ x ∈ encodeNat n, x < 256 := by
  intro x hx
  simp only [encodeNat, List.mem_append, List.mem_singleton] at hx
  rcases hx with hx | hx
  · exact natToB255Aux_lt n n (Nat.le_refl n) x hx
  · omega

theorem encodeList_lt (l : List Nat) : ∀ x ∈ encodeList l, x < 256 := by
  intro x hx
  simp only [encodeList, List.mem_append, List.mem_flatMap] at hx
  rcases hx with hx | ⟨a, _, hx⟩
  · exact encodeNat_lt _ x hx
  · exact encodeNat_lt a x hx

/-! ## Base64 codec

`arrayBufferToBase64` in `src/utils/crypto.ts` builds a latin1 string of the
buffer's bytes with `String.fromCharCode` and applies `btoa`;
`base64ToArrayBuffer` applies `atob` and reads the bytes back with
`charCodeAt`. The composition is standard base64 with `=` padding over the
raw bytes, which is what `btoa`/`atob` below implement. -/

/-- The base64 alphabet: index 0–63 to `A–Z a–z 0–9 + /`. -/
def b64Char (k : Nat) : Char :=
  if k < 26 then Char.ofNat (65 + k)
  else if k < 52 then Char.ofNat (97 + (k - 26))
  else if k < 62 then Char.ofNat (48 + (k - 52))
  else if k = 62 then Char.ofNat 43
  else Char.ofNat 47

/-- Inverse of the base64 alphabet (junk characters map to 63). -/
def b64Val (c : Char) : Nat :=
  let n := c.toNat
  if 65 ≤ n ∧ n ≤ 90 then n - 65
  else if 97 ≤ n ∧ n ≤ 122 then n - 97 + 26
  else if 48 ≤ n ∧ n ≤ 57 then n - 48 + 52
  else if n = 43 then 62
  else 63

/-- Model of the platform `btoa`: base64-encode a byte sequence, three bytes
to four characters, padding the final group with `=`. -/
def btoa : List Nat → List Char
  | [] => []
  | [a] => [b64Char (a / 4), b64Char (a % 4 * 16), Char.ofNat 61, Char.ofNat 61]
  | [a, b] => [b64Char (a / 4), b64Char (a % 4 * 16 + b / 16),
               b64Char (b % 16 * 4), Char.ofNat 61]
  | a :: b :: c :: rest =>
    b64Char (a / 4) :: b64Char (a % 4 * 16 + b / 16) ::
    b64Char (b % 16 * 4 + c / 64) :: b64Char (c % 64) :: btoa rest

/-- Model of the platform `atob`: base64-decode four characters at a time,
honouring `=` padding (totalized: malformed input yields a junk byte list
rather than the DOMException `atob` would throw). -/
def atob : List Char → List Nat
  | c1 :: c2 :: c3 :: c4 :: rest =>
    if c3 = Char.ofNat 61 then [b64Val c1 * 4 + b64Val c2 / 16]
    else if c4 = Char.ofNat 61 then
      [b64Val c1 * 4 + b64Val c2 / 16, b64Val c2 % 16 * 16 + b64Val c3 / 4]
    else
      (b64Val c1 * 4 + b64Val c2 / 16) :: (b64Val c2 % 16 * 16 + b64Val c3 / 4) ::
      (b64Val c3 % 4 * 64 + b64Val c4) :: atob rest
  | _ => []

/-- Function `arrayBufferToBase64` from `src/utils/crypto.ts`: bytes to a base64
string. -/
def arrayBufferToBase64 (buffer : List Nat) : List Char :=
  btoa buffer

/-- Function `base64ToArrayBuffer` from `src/utils/crypto.ts`: a base64 string back to
bytes. -/
def base64ToArrayBuffer (base64 : List Char) : List Nat :=
  atob base64

theorem atob_cons (c1 c2 c3 c4 : Char) (rest : List Char) :
    atob (c1 :: c2 :: c3 :: c4 :: rest) =
      if c3 = Char.ofNat 61 then [b64Val c1 * 4 + b64Val c2 / 16]
      else if c4 = Char.ofNat 61 then
        [b64Val c1 * 4 + b64Val c2 / 16, b64Val c2 % 16 * 16 + b64Val c3 / 4]
      else
        (b64Val c1 * 4 + b64Val c2 / 16) :: (b64Val c2 % 16 * 16 + b64Val c3 / 4) ::
        (b64Val c3 % 4 * 64 + b64Val c4) :: atob rest := rfl

theorem b64Val_b64Char : ∀ k, k < 64 → b64Val (b64Char k) = k := by decide

theorem b64Char_ne_pad : ∀ k, k < 64 → b64Char k ≠ Char.ofNat 61 := by decide

theorem atob_btoa (fuel : Nat) :
    ∀ l : List Nat, l.length ≤ fuel → (∀ b ∈ l, b < 256) →
      atob (btoa l) = l := by
  induction fuel with
  | zero =>
    intro l hlen _
    have : l = [] := List.length_eq_zero.mp (Nat.le_zero.mp hlen)
    subst this
    rfl
  | succ fuel ih =>
    intro l hlen hb
    match l with
    | [] => rfl
    | [a] =>
      have ha : a < 256 := hb a (by simp)
      show atob [b64Char (a / 4), b64Char (a % 4 * 16), Char.ofNat 61, Char.ofNat 61] = [a]
      rw [atob_cons, if_pos rfl, b64Val_b64Char _ (by omega), b64Val_b64Char _ (by omega)]
      congr 1
      omega
    | [a, b] =>
      have ha : a < 256 := hb a (by simp)
      have hbb : b < 256 := hb b (by simp)
      show atob [b64Char (a / 4), b64Char (a % 4 * 16 + b / 16),
                 b64Char (b % 16 * 4), Char.ofNat 61] = [a, b]
      rw [atob_cons, if_neg (b64Char_ne_pad _ (by omega)), if_pos rfl,
          b64Val_b64Char _ (by omega), b64Val_b64Char _ (by omega),
          b64Val_b64Char _ (by omega)]
      congr 1
      · omega
      · congr 1
        omega
    | a :: b :: c :: rest =>
      have ha : a < 256 := hb a (by simp)
      have hbb : b < 256 := hb b (by simp)
      have hc : c < 256 := hb c (by simp)
      show atob (b64Char (a / 4) :: b64Char (a % 4 * 16 + b / 16) ::
                 b64Char (b % 16 * 4 + c / 64) :: b64Char (c % 64) :: btoa rest)
            = a :: b :: c :: rest
      rw [atob_cons, if_neg (b64Char_ne_pad _ (by omega)), if_neg (b64Char_ne_pad _ (by omega)),
          b64Val_b64Char _ (by omega), b64Val_b64Char _ (by omega),
          b64Val_b64Char _ (by omega), b64Val_b64Char _ (by omega)]
      have hrest : atob (btoa rest) = rest := by
        refine ih rest ?_ ?_
        · simp only [List.length_cons] at hlen
          omega
        · intro x hx
          exact hb x (by simp [hx])
      rw [hrest]
      congr 1
      · omega
      · congr 1
        · omega
        · congr 1
          omega

theorem base64_roundtrip (bytes : List Nat) (h : ∀ b ∈ bytes, b < 256) :
    base64ToArrayBuffer (arrayBufferToBase64 bytes) = bytes :=
  atob_btoa bytes.length bytes (Nat.le_refl _) h

/-! ## UTF-8 codec

Model of the platform `TextEncoder().encode` / `TextDecoder().decode` used by
`encryptData`/`decryptData`: real UTF-8 over Unicode scalar values. The
decoder is totalized with U+FFFD on malformed input, as the non-fatal
`TextDecoder` is. -/

/-- A Unicode scalar value: a code point outside the surrogate range. -/
def ValidScalar (c : Nat) : Prop :=
  c < 1114112 ∧ ¬(55296 ≤ c ∧ c < 57344)

instance (c : Nat) : Decidable (ValidScalar c) := by
  unfold ValidScalar
  infer_instance

/-- UTF-8 encoding of one scalar value (1–4 bytes). -/
def utf8EncodeChar (c : Nat) : List Nat :=
  if c < 128 then [c]
  else if c < 2048 then [192 + c / 64, 128 + c % 64]
  else if c < 65536 then [224 + c / 4096, 128 + c / 64 % 64, 128 + c % 64]
  else [240 + c / 262144, 128 + c / 4096 % 64, 128 + c / 64 % 64, 128 + c % 64]

/-- Model of `TextEncoder().encode`: a string to its UTF-8 bytes. -/
def utf8Encode (s : JSString) : List Nat :=
  s.flatMap utf8EncodeChar

/-- Streaming UTF-8 decoder state machine: the state holds the number of
continuation bytes still expected and the accumulated code-point bits. -/
def utf8DecodeSM : Option (Nat × Nat) → List Nat → JSString
  | none, [] => []
  | some _, [] => [65533]
  | none, b :: rest =>
    if b < 128 then b :: utf8DecodeSM none rest
    else if b < 192 then 65533 :: utf8DecodeSM none rest
    else if b < 224 then utf8DecodeSM (some (1, b - 192)) rest
    else if b < 240 then utf8DecodeSM (some (2, b - 224)) rest
    else utf8DecodeSM (some (3, b - 240)) rest
  | some (0, _), _ :: rest => 65533 :: utf8DecodeSM none rest
  | some (1, acc), b :: rest => (acc * 64 + b % 64) :: utf8DecodeSM none rest
  | some (k + 2, acc), b :: rest => utf8DecodeSM (some (k + 1, acc * 64 + b % 64)) rest

/-- Model of `TextDecoder().decode` (non-fatal): UTF-8 bytes back to scalar values,
with U+FFFD (65533) on malformed sequences. -/
def utf8Decode (l : List Nat) : JSString :=
  utf8DecodeSM none l

theorem utf8DecodeSM_none_cons (b : Nat) (rest : List Nat) :
    utf8DecodeSM none (b :: rest) =
      if b < 128 then b :: utf8DecodeSM none rest
      else if b < 192 then 65533 :: utf8DecodeSM none rest
      else if b < 224 then utf8DecodeSM (some (1, b - 192)) rest
      else if b < 240 then utf8DecodeSM (some (2, b - 224)) rest
      else utf8DecodeSM (some (3, b - 240)) rest := rfl

theorem utf8DecodeSM_one (acc b : Nat) (rest : List Nat) :
    utf8DecodeSM (some (1, acc)) (b :: rest) =
      (acc * 64 + b % 64) :: utf8DecodeSM none rest := rfl

theorem utf8DecodeSM_two (acc b : Nat) (rest : List Nat) :
    utf8DecodeSM (some (2, acc)) (b :: rest) =
      utf8DecodeSM (some (1, acc * 64 + b % 64)) rest := rfl

theorem utf8DecodeSM_three (acc b : Nat) (rest : List Nat) :
    utf8DecodeSM (some (3, acc)) (b :: rest) =
      utf8DecodeSM (some (2, acc * 64 + b % 64)) rest := rfl

theorem utf8Decode_encodeChar (c : Nat) (hc : c < 1114112) (r : List Nat) :
    utf8Decode (utf8EncodeChar c ++ r) = c :: utf8Decode r := by
  unfold utf8Decode utf8EncodeChar
  by_cases h1 : c < 128
  · rw [if_pos h1, List.cons_append, List.nil_append, utf8DecodeSM_none_cons, if_pos h1]
  · by_cases h2 : c < 2048
    · rw [if_neg h1, if_pos h2, List.cons_append, List.cons_append, List.nil_append,
        utf8DecodeSM_none_cons, if_neg (by omega), if_neg (by omega), if_pos (by omega),
        utf8DecodeSM_one]
      congr 1
      omega
    · by_cases h3 : c < 65536
      · rw [if_neg h1, if_neg h2, if_pos h3, List.cons_append, List.cons_append,
          List.cons_append, List.nil_append, utf8DecodeSM_none_cons,
          if_neg (by omega), if_neg (by omega), if_neg (by omega), if_pos (by omega),
          utf8DecodeSM_two, utf8DecodeSM_one]
        congr 1
        omega
      · rw [if_neg h1, if_neg h2, if_neg h3, List.cons_append, List.cons_append,
          List.cons_append, List.cons_append, List.nil_append, utf8DecodeSM_none_cons,
          if_neg (by omega), if_neg (by omega), if_neg (by omega), if_neg (by omega),
          utf8DecodeSM_three, utf8DecodeSM_two, utf8DecodeSM_one]
        congr 1
        omega

theorem utf8_roundtrip (s : JSString) (h : ∀ c ∈ s, c < 1114112) :
    utf8Decode (utf8Encode s) = s := by
  induction s with
  | nil => rfl
  | cons c s ih =>
    simp only [utf8Encode, List.flatMap_cons]
    rw [utf8Decode_encodeChar c (h c (by simp)) (s.flatMap utf8EncodeChar)]
    congr 1
    exact ih fun x hx => h x (by simp [hx])

theorem utf8Encode_injective {a b : JSString}
    (ha : ∀ c ∈ a, c < 1114112) (hb : ∀ c ∈ b, c < 1114112)
    (h : utf8Encode a = utf8Encode b) : a = b := by
  have h1 := utf8_roundtrip a ha
  have h2 := utf8_roundtrip b hb
  rw [h] at h1
  rw [h1] at h2
  exact h2

/-! ## Idealized AES-GCM

Model of `crypto.subtle.encrypt`/`crypto.subtle.decrypt` with AES-GCM: an
authenticated cipher whose ciphertext is a serialization of (key, nonce,
plaintext) and whose decryption succeeds exactly on a well-formed ciphertext
produced under the same key and nonce. This captures AES-GCM's functional
contract (decrypt inverts encrypt; authentication fails under a different
key, nonce, or tampered ciphertext); it does not model confidentiality,
which none of the claims here require. -/

/-- Idealized AEAD encryption: serialize key, nonce and plaintext. Every
output element is a byte below 256. -/
def aeadEncrypt (key iv pt : List Nat) : List Nat :=
  encodeList key ++ encodeList iv ++ encodeList pt

/-- Idealized AEAD decryption: parse the ciphertext and check that the stored
key and nonce match the supplied ones, with nothing left over. -/
def aeadDecrypt (key iv ct : List Nat) : Option (List Nat) :=
  match decodeList ct with
  | some (k, r1) =>
    match decodeList r1 with
    | some (i, r2) =>
      match decodeList r2 with
      | some (p, r3) => if k = key ∧ i = iv ∧ r3 = [] then some p else none
      | none => none
    | none => none
  | none => none

theorem aeadEncrypt_lt (key iv pt : List Nat) :
    ∀ x ∈ aeadEncrypt key iv pt, x < 256 := by
  intro x hx
  simp only [aeadEncrypt, List.mem_append] at hx
  rcases hx with (hx | hx) | hx
  · exact encodeList_lt _ x hx
  · exact encodeList_lt _ x hx
  · exact encodeList_lt _ x hx

theorem aeadDecrypt_parse (key2 key iv2 iv pt : List Nat) :
    aeadDecrypt key2 iv2 (aeadEncrypt key iv pt) =
      if key = key2 ∧ iv = iv2 then some pt else none := by
  simp only [aeadEncrypt, aeadDecrypt, List.append_assoc]
  rw [decodeList_encodeList]
  dsimp only
  rw [decodeList_encodeList]
  dsimp only
  rw [show encodeList pt = encodeList pt ++ [] from (List.append_nil _).symm,
    decodeList_encodeList]
  dsimp only
  by_cases h : key = key2 ∧ iv = iv2
  · rw [if_pos ⟨h.1, h.2, rfl⟩, if_pos h]
  · rw [if_neg (by tauto), if_neg h]

theorem aeadDecrypt_encrypt (key iv pt : List Nat) :
    aeadDecrypt key iv (aeadEncrypt key iv pt) = some pt := by
  rw [aeadDecrypt_parse, if_pos ⟨rfl, rfl⟩]

theorem aeadDecrypt_wrong_key (key2 key iv2 iv pt : List Nat) (h : key ≠ key2) :
    aeadDecrypt key2 iv2 (aeadEncrypt key iv pt) = none := by
  rw [aeadDecrypt_parse, if_neg (by tauto)]

/-! ## `src/utils/crypto.ts` -/

/-- Function `deriveMasterKey` from `src/utils/crypto.ts`: imports the UTF-8 bytes of
the master password as PBKDF2 key material via `crypto.subtle.importKey`.
The salt parameter is declared as `_salt` in the source and never used. -/
def deriveMasterKey (masterPassword : JSString) ( _salt : List Nat) : List Nat :=
  utf8Encode masterPassword

/-- Function `deriveVaultKey` from `src/utils/crypto.ts`: derives an AES-GCM key from
the master key material and the salt via `crypto.subtle.deriveKey` with
PBKDF2. The platform KDF is modelled as a deterministic function of
(key material, salt) that is injective in the pair, the idealization of
PBKDF2's collision-freeness assumption. -/
def deriveVaultKey (masterKeyMaterial : List Nat) (salt : List Nat) : List Nat :=
  encodeList masterKeyMaterial ++ encodeList salt

/-- Function `encryptData` from `src/utils/crypto.ts`: UTF-8 encode the plaintext,
AES-GCM encrypt it under the key and the (randomly drawn, here

explicitly passed) 12-byte IV, and base64 both ciphertext and IV. Returns
(encryptedData, iv). -/
def encryptData (data : JSString) (key : List Nat) (iv : List Nat) :
    List Char × List Char :=
  let encodedData := utf8Encode data
  let encrypted := aeadEncrypt key iv encodedData
  (arrayBufferToBase64 encrypted, arrayBufferToBase64 iv)

/-- Function `decryptData` from `src/utils/crypto.ts`: base64-decode the ciphertext
and IV, AES-GCM decrypt, and UTF-8 decode the result. `none` models the
exception thrown by `crypto.subtle.decrypt` on authentication failure. -/
def decryptData (encryptedData : List Char) (iv : List Char) (key : List Nat) :
    Option JSString :=
  let data := base64ToArrayBuffer encryptedData
  let ivArray := base64ToArrayBuffer iv
  (aeadDecrypt key ivArray data).map utf8Decode

theorem decryptData_encryptData (data : JSString) (key iv : List Nat)
    (hdata : ∀ c ∈ data, c < 1114112) (hiv : ∀ b ∈ iv, b < 256) :
    decryptData (encryptData data key iv).1 (encryptData data key iv).2 key =
      some data := by
  simp only [encryptData, decryptData]
  rw [base64_roundtrip _ (aeadEncrypt_lt _ _ _), base64_roundtrip _ hiv,
    aeadDecrypt_encrypt]
  show some (utf8Decode (utf8Encode data)) = some data
  rw [utf8_roundtrip data hdata]

theorem decryptData_wrong_key (data : JSString) (key2 key iv : List Nat)
    (hiv : ∀ b ∈ iv, b < 256) (h : key ≠ key2) :
    decryptData (encryptData data key iv).1 (encryptData data key iv).2 key2 =
      none := by
  simp only [encryptData, decryptData]
  rw [base64_roundtrip _ (aeadEncrypt_lt _ _ _), base64_roundtrip _ hiv,
    aeadDecrypt_wrong_key _ _ _ _ _ h]
  rfl

/-- The character sets of `generatePassword` in `src/utils/crypto.ts`. -/
def lowercaseChars : List Char :=
  [Char.ofNat 97, Char.ofNat 98, Char.ofNat 99, Char.ofNat 100, Char.ofNat 101,
   Char.ofNat 102, Char.ofNat 103, Char.ofNat 104, Char.ofNat 105, Char.ofNat 106,
   Char.ofNat 107, Char.ofNat 108, Char.ofNat 109, Char.ofNat 110, Char.ofNat 111,
   Char.ofNat 112, Char.ofNat 113, Char.ofNat 114, Char.ofNat 115, Char.ofNat 116,
   Char.ofNat 117, Char.ofNat 118, Char.ofNat 119, Char.ofNat 120, Char.ofNat 121,
   Char.ofNat 122]

def uppercaseChars : List Char :=
  [Char.ofNat 65, Char.ofNat 66, Char.ofNat 67, Char.ofNat 68, Char.ofNat 69,
   Char.ofNat 70, Char.ofNat 71, Char.ofNat 72, Char.ofNat 73, Char.ofNat 74,
   Char.ofNat 75, Char.ofNat 76, Char.ofNat 77, Char.ofNat 78, Char.ofNat 79,
   Char.ofNat 80, Char.ofNat 81, Char.ofNat 82, Char.ofNat 83, Char.ofNat 84,
   Char.ofNat 85, Char.ofNat 86, Char.ofNat 87, Char.ofNat 88, Char.ofNat 89,
   Char.ofNat 90]

def numberChars : List Char :=
  [Char.ofNat 48, Char.ofNat 49, Char.ofNat 50, Char.ofNat 51, Char.ofNat 52,
   Char.ofNat 53, Char.ofNat 54, Char.ofNat 55, Char.ofNat 56, Char.ofNat 57]

/-- The symbol set `!@#$%^&*()_+-=[]\x7b\x7d|;:,.<>?` written by code point. -/
def symbolChars : List Char :=
  [Char.ofNat 33, Char.ofNat 64, Char.ofNat 35, Char.ofNat 36, Char.ofNat 37,
   Char.ofNat 94, Char.ofNat 38, Char.ofNat 42, Char.ofNat 40, Char.ofNat 41,
   Char.ofNat 95, Char.ofNat 43, Char.ofNat 45, Char.ofNat 61, Char.ofNat 91,
   Char.ofNat 93, Char.ofNat 123, Char.ofNat 125, Char.ofNat 124, Char.ofNat 59,
   Char.ofNat 58, Char.ofNat 44, Char.ofNat 46, Char.ofNat 60, Char.ofNat 62,
   Char.ofNat 63]

/-- The charset assembled by `generatePassword`: lowercase + uppercase +
digits, with symbols appended when `includeSymbols` is set. -/
def charset (includeSymbols : Bool) : List Char :=
  let base := lowercaseChars ++ uppercaseChars ++ numberChars
  if includeSymbols then base ++ symbolChars else base

/-- The index computation of `generatePassword`: a fresh 32-bit value from
`crypto.getRandomValues(new Uint32Array(1))` reduced modulo the charset
length. -/
def randomIndex (u : Nat) (csLength : Nat) : Nat :=
  u % csLength

/-- Function `generatePassword` from `src/utils/crypto.ts`: `length` characters, each
picked as `charset[randomIndex]`. The stream of 32-bit random values is the
explicit parameter `randoms`. -/
def generatePassword (length : Nat) (includeSymbols : Bool) (randoms : Nat → Nat) :
    List Char :=
  let cs := charset includeSymbols
  (List.range length).map fun i => cs.getD (randomIndex (randoms i) cs.length) (Char.ofNat 97)

/-! ## Data model (`src/types.ts`) -/

/-- Structure `PasswordEntry` from `src/types.ts` (dates as epoch milliseconds). -/
structure PasswordEntry where
  id : JSString
  title : JSString
  username : JSString
  password : JSString
  url : Option JSString
  notes : Option JSString
  createdAt : Nat
  updatedAt : Nat
deriving DecidableEq

/-- Structure `EncryptedEntry` from `src/types.ts`: the persisted form of an entry. -/
structure EncryptedEntry where
  id : JSString
  encryptedData : List Char
  iv : List Char
  createdAt : Nat
  updatedAt : Nat
deriving DecidableEq

/-- The persisted vault envelope (`StoredVault` in `src/utils/storage.ts`,
sans timestamps, which no claim concerns). -/
structure VaultMetadata where
  salt : List Nat
  encryptedVaultKey : List Char
  vaultKeyIv : List Char
deriving DecidableEq

/-! ## JSON codec for entries

`addEntry`/`updateEntry` store `JSON.stringify(entry)` and `unlockVault`
recovers entries with `JSON.parse`. The platform JSON codec is modelled as an
injective serializer whose output string consists of code points below 256,
together with its parser. -/

/-- Serialize an optional string field. -/
def encodeOptList : Option (List Nat) → List Nat
  | none => [0]
  | some s => 1 :: encodeList s

/-- Parse an optional string field. -/
def decodeOptList : List Nat → Option (Option (List Nat) × List Nat)
  | 0 :: r => some (none, r)
  | 1 :: r =>
    match decodeList r with
    | some (s, r2) => some (some s, r2)
    | none => none
  | _ => none

theorem decodeOptList_encodeOptList (o : Option (List Nat)) (r : List Nat) :
    decodeOptList (encodeOptList o ++ r) = some (o, r) := by
  match o with
  | none => rfl
  | some s =>
    show decodeOptList (1 :: (encodeList s ++ r)) = some (some s, r)
    show (match decodeList (encodeList s ++ r) with
          | some (s, r2) => some (some s, r2)
          | none => none) = some (some s, r)
    rw [decodeList_encodeList]

/-- Model of `JSON.stringify` on a `PasswordEntry`. -/
def serializeEntry (e : PasswordEntry) : JSString :=
  encodeList e.id ++ encodeList e.title ++ encodeList e.username ++
  encodeList e.password ++ encodeOptList e.url ++ encodeOptList e.notes ++
  encodeNat e.createdAt ++ encodeNat e.updatedAt

/-- Model of `JSON.parse` on a serialized `PasswordEntry` (`none` models the
`SyntaxError` thrown on malformed input). -/
def parseEntry (s : JSString) : Option PasswordEntry :=
  match decodeList s with
  | some (id, r1) =>
    match decodeList r1 with
    | some (title, r2) =>
      match decodeList r2 with
      | some (username, r3) =>
        match decodeList r3 with
        | some (password, r4) =>
          match decodeOptList r4 with
          | some (url, r5) =>
            match decodeOptList r5 with
            | some (notes, r6) =>
              match decodeNat r6 with
              | some (createdAt, r7) =>
                match decodeNat r7 with
                | some (updatedAt, r8) =>
                  if r8 = [] then
                    some ⟨id, title, username, password, url, notes,
                          createdAt, updatedAt⟩
                  else none
                | none => none
              | none => none
            | none => none
          | none => none
        | none => none
      | none => none
    | none => none
  | none => none

theorem parseEntry_serializeEntry (e : PasswordEntry) :
    parseEntry (serializeEntry e) = some e := by
  simp only [serializeEntry, List.append_assoc]
  unfold parseEntry
  rw [decodeList_encodeList]
  dsimp only
  rw [decodeList_encodeList]
  dsimp only
  rw [decodeList_encodeList]
  dsimp only
  rw [decodeList_encodeList]
  dsimp only
  rw [decodeOptList_encodeOptList]
  dsimp only
  rw [decodeOptList_encodeOptList]
  dsimp only
  rw [decodeNat_encodeNat]
  dsimp only
  rw [show encodeNat e.updatedAt = encodeNat e.updatedAt ++ [] from
    (List.append_nil _).symm, decodeNat_encodeNat]
  rfl

theorem encodeOptList_lt (o : Option (List Nat)) :
    ∀ c ∈ encodeOptList o, c < 256 := by
  match o with
  | none =>
    intro c hc
    simp [encodeOptList] at hc
    omega
  | some u =>
    intro c hc
    simp only [encodeOptList, List.mem_cons] at hc
    rcases hc with hc | hc
    · omega
    · exact encodeList_lt _ c hc

theorem serializeEntry_lt (e : PasswordEntry) :
    ∀ c ∈ serializeEntry e, c < 256 := by
  intro c hc
  simp only [serializeEntry, List.mem_append] at hc
  rcases hc with ((((((h | h) | h) | h) | h) | h) | h) | h
  · exact encodeList_lt _ c h
  · exact encodeList_lt _ c h
  · exact encodeList_lt _ c h
  · exact encodeList_lt _ c h
  · exact encodeOptList_lt _ c h
  · exact encodeOptList_lt _ c h
  · exact encodeNat_lt _ c h
  · exact encodeNat_lt _ c h

/-! ## Vault operations (`useVault` hook) -/

/-- Model of `decryptedVaultKeyString.split(\x27\x27).map(c => c.charCodeAt(0))`: the
UTF-16 code units of a string (identity on code points below 0x10000). -/
def charCodeUnits (s : JSString) : List Nat :=
  s.flatMap fun c =>
    if c < 65536 then [c]
    else [55296 + (c - 65536) / 1024, 56320 + (c - 65536) % 1024]

theorem charCodeUnits_small (s : JSString) (h : ∀ c ∈ s, c < 65536) :
    charCodeUnits s = s := by
  induction s with
  | nil => rfl
  | cons c s ih =>
    simp only [charCodeUnits, List.flatMap_cons] at ih ⊢
    rw [if_pos (h c (by simp)), ih fun x hx => h x (by simp [hx])]
    rfl

/-- Function `createVault` from the `useVault` hook (the cryptographic core): generate
salt and vault key (passed in as the randomness parameters `salt`,
`vaultKeyBytes`), derive the wrapping key from the master password, wrap the
exported vault key bytes (as a `String.fromCharCode` latin1 string) under a
fresh IV, and return the metadata to persist plus the in-memory vault key. -/
def createVault (masterPassword : JSString) (salt vaultKeyBytes iv : List Nat) :
    VaultMetadata × List Nat :=
  let masterKey := deriveMasterKey masterPassword salt
  let vaultKeyString : JSString := vaultKeyBytes
  let encryptionKey := deriveVaultKey masterKey salt
  let ed := encryptData vaultKeyString encryptionKey iv
  ({ salt := salt, encryptedVaultKey := ed.1, vaultKeyIv := ed.2 }, vaultKeyBytes)

/-- The unwrap step of `unlockVault`: re-derive the wrapping key from the
password and the stored salt, decrypt the wrapped vault key, and read the
key bytes back with `charCodeAt`. -/
def unwrapVaultKey (masterPassword : JSString) (meta : VaultMetadata) :
    Option (List Nat) :=
  let masterKey := deriveMasterKey masterPassword meta.salt
  let encryptionKey := deriveVaultKey masterKey meta.salt
  (decryptData meta.encryptedVaultKey meta.vaultKeyIv encryptionKey).map
    charCodeUnits

/-- One iteration of the entry-decryption loop in `unlockVault`:
`decryptData` then `JSON.parse`; any failure inside the per-entry `try` makes
the entry be skipped. -/
def decryptEntry (vaultKey : List Nat) (e : EncryptedEntry) :
    Option PasswordEntry :=
  (decryptData e.encryptedData e.iv vaultKey).bind parseEntry

/-- Function `unlockVault` from the `useVault` hook (the cryptographic core): unwrap
the vault key, then decrypt every stored entry, dropping entries that fail.
`none` models the `catch` path (any failure before the entry loop). -/
def unlockVault (masterPassword : JSString) (meta : VaultMetadata)
    (encryptedEntries : List EncryptedEntry) :
    Option (List Nat × List PasswordEntry) :=
  match unwrapVaultKey masterPassword meta with
  | none => none
  | some vaultKey =>
    some (vaultKey, encryptedEntries.filterMap (decryptEntry vaultKey))

theorem unwrapVaultKey_createVault (pw : JSString) (salt vk iv : List Nat)
    (hvk : ∀ b ∈ vk, b < 256) (hiv : ∀ b ∈ iv, b < 256) :
    unwrapVaultKey pw (createVault pw salt vk iv).1 = some vk := by
  simp only [createVault, unwrapVaultKey]
  rw [decryptData_encryptData vk _ iv (fun c hc => by have := hvk c hc; omega) hiv]
  show some (charCodeUnits vk) = some vk
  rw [charCodeUnits_small vk fun c hc => by have := hvk c hc; omega]

theorem unwrapVaultKey_wrong_password (pw pw2 : JSString) (salt vk iv : List Nat)
    (hpw : ∀ c ∈ pw, c < 1114112) (hpw2 : ∀ c ∈ pw2, c < 1114112)
    (hiv : ∀ b ∈ iv, b < 256) (hne : pw ≠ pw2) :
    unwrapVaultKey pw2 (createVault pw salt vk iv).1 = none := by
  simp only [createVault, unwrapVaultKey]
  rw [decryptData_wrong_key vk _ _ iv hiv ?_]
  · rfl
  · intro h
    rcases encodeList_append_injective h with ⟨hk, _⟩
    exact hne (utf8Encode_injective hpw hpw2 hk)

/-! ## Session layer (`useVault` hook state) -/

/-- The observable session state of the `useVault` hook: the in-memory vault
key reference (`vaultKeyRef.current`), the decrypted entry list
(`vaultState.entries`), the persisted entry store (`db.entries`), and the
last error message. -/
structure VaultSnapshot where
  vaultKey : Option (List Nat)
  entries : List PasswordEntry
  storage : List EncryptedEntry
  error : Option String
deriving DecidableEq

/-- The fields of a new entry supplied by the caller of `addEntry`
(`Omit<PasswordEntry, id | createdAt | updatedAt>`). -/
structure EntryInput where
  title : JSString
  username : JSString
  password : JSString
  url : Option JSString
  notes : Option JSString
deriving DecidableEq

/-- Model of `db.entries.put`: upsert by primary key `id` (Dexie `Table.put`). -/
def putStorage (storage : List EncryptedEntry) (e : EncryptedEntry) :
    List EncryptedEntry :=
  if storage.any fun x => x.id == e.id then
    storage.map fun x => if x.id == e.id then e else x
  else storage ++ [e]

/-- Function `addEntry` from the `useVault` hook: refuse with the locked-session error
when no vault key is in memory; otherwise build the entry (fresh UUID and
timestamps passed in), encrypt it under a fresh IV, persist it, and append
it to the in-memory list. Returns the new snapshot and the Boolean result. -/
def addEntry (st : VaultSnapshot) (input : EntryInput) (newId : JSString)
    (now : Nat) (iv : List Nat) : VaultSnapshot × Bool :=
  match st.vaultKey with
  | none => ({ st with error := some "Vault is locked" }, false)
  | some vk =>
    let newEntry : PasswordEntry :=
      { id := newId
        title := input.title
        username := input.username
        password := input.password
        url := input.url
        notes := input.notes
        createdAt := now
        updatedAt := now }
    let ed := encryptData (serializeEntry newEntry) vk iv
    let stored : EncryptedEntry :=
      { id := newId
        encryptedData := ed.1
        iv := ed.2
        createdAt := now
        updatedAt := now }
    ({ st with
       error := none
       storage := putStorage st.storage stored
       entries := st.entries ++ [newEntry] }, true)

/-- Function `updateEntry` from the `useVault` hook: refuse with the locked-session
error when no vault key is in memory; otherwise re-encrypt the updated entry
with a fresh timestamp and IV, persist it, and replace it in the in-memory
list. -/
def updateEntry (st : VaultSnapshot) (updatedEntry : PasswordEntry)
    (now : Nat) (iv : List Nat) : VaultSnapshot × Bool :=
  match st.vaultKey with
  | none => ({ st with error := some "Vault is locked" }, false)
  | some vk =>
    let entryWithTimestamp := { updatedEntry with updatedAt := now }
    let ed := encryptData (serializeEntry entryWithTimestamp) vk iv
    let stored : EncryptedEntry :=
      { id := entryWithTimestamp.id
        encryptedData := ed.1
        iv := ed.2
        createdAt := updatedEntry.createdAt
        updatedAt := now }
    ({ st with
       error := none
       storage := putStorage st.storage stored
       entries := st.entries.map fun entry =>
         if entry.id = updatedEntry.id then entryWithTimestamp else entry },
     true)

/-- Function `deleteEntry` from the `useVault` hook, translated as written: it
performs no locked-state check at all — it deletes from persistent storage
and from the in-memory list unconditionally and returns `true`. -/
def deleteEntry (st : VaultSnapshot) (entryId : JSString) :
    VaultSnapshot × Bool :=
  ({ st with
     error := none
     storage := st.storage.filter fun e => !(e.id == entryId)
     entries := st.entries.filter fun e => !(e.id == entryId) }, true)

/-- Function `setupAutoLock` from the `useVault` hook, translated as written: it
always clears any pending timer and then unconditionally calls
`setTimeout(lockVault, autoLockTimeoutMinutes * 60 * 1000)` — there is no
branch for a "never" value. The result models the scheduling call:
`some delayMs` when `setTimeout` is invoked with that delay, `none` when no
scheduling call is made. -/
def setupAutoLock (autoLockTimeoutMinutes : Int) : Option Int :=
  some (autoLockTimeoutMinutes * 60 * 1000)

/-- The observable outcome of a run of `unlockVault` in the hook: the Boolean
return value and the error message left in state. -/
structure UnlockOutcome where
  success : Bool
  error : Option String
deriving DecidableEq

/-- The `unlockVault` function of the hook including its error handling: a
missing vault envelope (`Vault not found`), a failed unwrap, or any other
exception all land in the same `catch`, which stores the one generic message
`Invalid master password or corrupted vault`. -/
def unlockVaultRun (masterPassword : JSString) (meta : Option VaultMetadata)
    (encryptedEntries : List EncryptedEntry) : UnlockOutcome :=
  match meta with
  | none => { success := false, error := some "Invalid master password or corrupted vault" }
  | some m =>
    match unlockVault masterPassword m encryptedEntries with
    | none => { success := false, error := some "Invalid master password or corrupted vault" }
    | some _ => { success := true, error := none }

/-! ## Claim theorems -/

/-- C1: wrapping the vault key at vault creation and unwrapping with the same
password and stored salt yields the original vault key (and an empty record
set when no records are stored), while unlocking with any different password
fails. -/
theorem wrap_unwrap_consistency (pw : JSString) (salt vk iv : List Nat)
    (hpw : ∀ c ∈ pw, c < 1114112)
    (hvk : ∀ b ∈ vk, b < 256) (hiv : ∀ b ∈ iv, b < 256) :
    unlockVault pw (createVault pw salt vk iv).1 [] = some (vk, []) ∧
    ∀ pw2, (∀ c ∈ pw2, c < 1114112) → pw2 ≠ pw →
      ∀ es, unlockVault pw2 (createVault pw salt vk iv).1 es = none := by
  constructor
  · unfold unlockVault
    rw [unwrapVaultKey_createVault pw salt vk iv hvk hiv]
    rfl
  · intro pw2 hpw2 hne es
    unfold unlockVault
    rw [unwrapVaultKey_wrong_password pw pw2 salt vk iv hpw hpw2 hiv
      fun h => hne h.symm]

theorem wrap_unwrap_consistency_witness :
    unlockVault [104, 105] (createVault [104, 105] [1, 2] [0, 255, 7] [9]).1 []
      = some ([0, 255, 7], []) ∧
    unlockVault [120] (createVault [104, 105] [1, 2] [0, 255, 7] [9]).1 []
      = none :=
  ⟨(wrap_unwrap_consistency [104, 105] [1, 2] [0, 255, 7] [9]
      (by decide) (by decide) (by decide)).1,
   (wrap_unwrap_consistency [104, 105] [1, 2] [0, 255, 7] [9]
      (by decide) (by decide) (by decide)).2 [120] (by decide) (by decide) []⟩

/-- C2: for every plaintext string and AES-GCM key, `decryptData` applied to
the ciphertext and nonce produced by `encryptData` under the same key
returns the plaintext. -/
theorem encrypt_decrypt_roundtrip (data : JSString) (key iv : List Nat)
    (hdata : ∀ c ∈ data, c < 1114112) (hiv : ∀ b ∈ iv, b < 256) :
    decryptData (encryptData data key iv).1 (encryptData data key iv).2 key
      = some data :=
  decryptData_encryptData data key iv hdata hiv

theorem encrypt_decrypt_roundtrip_witness :
    decryptData (encryptData [65, 8364] [300] [12]).1
      (encryptData [65, 8364] [300] [12]).2 [300] = some [65, 8364] :=
  encrypt_decrypt_roundtrip [65, 8364] [300] [12] (by decide) (by decide)

/-- C6 (amended): key derivation performs no password validation — for every
master password, the empty string included, derivation succeeds and the
vault wrapped under it unwraps. -/
theorem derivation_accepts_every_password (pw : JSString) (salt vk iv : List Nat)
    (hvk : ∀ b ∈ vk, b < 256) (hiv : ∀ b ∈ iv, b < 256) :
    unlockVault pw (createVault pw salt vk iv).1 [] = some (vk, []) := by
  unfold unlockVault
  rw [unwrapVaultKey_createVault pw salt vk iv hvk hiv]
  rfl

theorem derivation_accepts_every_password_witness :
    unlockVault [] (createVault [] [4] [9] [2]).1 [] = some ([9], []) :=
  derivation_accepts_every_password [] [4] [9] [2] (by decide) (by decide)

/-- C6 (counterexample to the claim as stated): with the empty master
password, creating a vault and unlocking it succeeds — `deriveMasterKey`
raises no `DerivationError` on an empty password. -/
theorem derivation_empty_password_succeeds :
    unlockVault [] (createVault [] [1, 2] [7, 8] [3]).1 [] = some ([7, 8], []) := by
  decide

/-- C7: the binary-to-text codec round-trips losslessly on every byte
sequence. -/
theorem base64_codec_roundtrip (bytes : List Nat) (h : ∀ b ∈ bytes, b < 256) :
    base64ToArrayBuffer (arrayBufferToBase64 bytes) = bytes :=
  base64_roundtrip bytes h

theorem base64_codec_roundtrip_witness :
    base64ToArrayBuffer (arrayBufferToBase64 []) = ([] : List Nat) ∧
    base64ToArrayBuffer (arrayBufferToBase64 (List.range 256)) = List.range 256 :=
  ⟨base64_codec_roundtrip [] (by decide),
   base64_codec_roundtrip (List.range 256) (by decide)⟩

/-- C10: `deriveMasterKey` ignores its salt parameter entirely — the same
password with any two salts yields the same key material — and the salt
influences the derived keys only through the later `deriveVaultKey` step,
which separates any two salts. -/
theorem deriveMasterKey_ignores_salt (pw : JSString) (s1 s2 : List Nat) :
    deriveMasterKey pw s1 = deriveMasterKey pw s2 ∧
    ∀ km, s1 ≠ s2 → deriveVaultKey km s1 ≠ deriveVaultKey km s2 := by
  constructor
  · rfl
  · intro km hne h
    exact hne (encodeList_append_injective h).2

theorem deriveMasterKey_ignores_salt_witness :
    deriveMasterKey [104] [1] = deriveMasterKey [104] [2] ∧
    deriveVaultKey [9] [1] ≠ deriveVaultKey [9] [2] :=
  ⟨(deriveMasterKey_ignores_salt [104] [1] [2]).1,
   (deriveMasterKey_ignores_salt [104] [1] [2]).2 [9] (by decide)⟩

/-- Splitting a `filterMap`'s length: successes plus failures cover the
list. -/
theorem length_filterMap_add_length_filter {α β : Type} (f : α → Option β)
    (l : List α) :
    (l.filterMap f).length + (l.filter fun a => (f a).isNone).length
      = l.length := by
  induction l with
  | nil => rfl
  | cons a l ih =>
    cases h : f a with
    | none =>
      simp only [List.filterMap_cons, List.filter_cons, h, Option.isNone_none,
        List.length_cons, if_pos]
      omega
    | some b =>
      simp only [List.filterMap_cons, List.filter_cons, h, Option.isNone_some,
        List.length_cons]
      simp only [Bool.false_eq_true, if_false, List.length_cons]
      omega

/-- C5: when exactly one persisted record fails authenticated decryption,
unlocking with the correct password still succeeds, and the in-memory record
set is exactly the records that decrypted, one fewer than were stored. -/
theorem unlock_partial_corruption (pw : JSString) (salt vk iv : List Nat)
    (es : List EncryptedEntry)
    (hvk : ∀ b ∈ vk, b < 256) (hiv : ∀ b ∈ iv, b < 256)
    (hbad : (es.filter fun e => (decryptEntry vk e).isNone).length = 1) :
    unlockVault pw (createVault pw salt vk iv).1 es
      = some (vk, es.filterMap (decryptEntry vk)) ∧
    (es.filterMap (decryptEntry vk)).length = es.length - 1 := by
  constructor
  · unfold unlockVault
    rw [unwrapVaultKey_createVault pw salt vk iv hvk hiv]
  · have := length_filterMap_add_length_filter (decryptEntry vk) es
    omega

/-- A sample plaintext entry for the corruption-tolerance witness. -/
def sampleEntry : PasswordEntry :=
  { id := [49], title := [69], username := [97], password := [112],
    url := none, notes := none, createdAt := 5, updatedAt := 6 }

/-- The sample vault key for the corruption-tolerance witness. -/
def sampleVaultKey : List Nat := [5, 6]

/-- Entry `sampleEntry` correctly encrypted under `sampleVaultKey`. -/
def goodEncryptedEntry : EncryptedEntry :=
  { id := [49]
    encryptedData := (encryptData (serializeEntry sampleEntry) sampleVaultKey [3]).1
    iv := (encryptData (serializeEntry sampleEntry) sampleVaultKey [3]).2
    createdAt := 5
    updatedAt := 6 }

/-- A persisted record whose ciphertext fails authentication. -/
def tamperedEncryptedEntry : EncryptedEntry :=
  { id := [50], encryptedData := [Char.ofNat 65], iv := [],
    createdAt := 7, updatedAt := 8 }

theorem unlock_partial_corruption_witness :
    unlockVault [112] (createVault [112] [1] sampleVaultKey [2]).1
        [goodEncryptedEntry, tamperedEncryptedEntry]
      = some (sampleVaultKey,
          [goodEncryptedEntry, tamperedEncryptedEntry].filterMap
            (decryptEntry sampleVaultKey)) ∧
    ([goodEncryptedEntry, tamperedEncryptedEntry].filterMap
        (decryptEntry sampleVaultKey)).length
      = [goodEncryptedEntry, tamperedEncryptedEntry].length - 1 :=
  unlock_partial_corruption [112] [1] sampleVaultKey [2]
    [goodEncryptedEntry, tamperedEncryptedEntry]
    (by decide) (by decide) (by decide)

/-- C3 (code evaluated at the failing input): `deleteEntry` invoked on a
locked session — no vault key in memory, one encrypted record persisted —
does not fail with the locked-session error: it deletes the record from
persistent storage and reports success. -/
theorem deleteEntry_locked_bypasses_check :
    deleteEntry
      { vaultKey := none
        entries := []
        storage := [{ id := [101], encryptedData := [], iv := [],
                      createdAt := 0, updatedAt := 0 }]
        error := none }
      [101]
    = ({ vaultKey := none, entries := [], storage := [], error := none },
       true) := by
  decide

/-- C4 (code evaluated at the failing input): with the auto-lock timeout
configured to −1 ("never"), `setupAutoLock` still makes a scheduling call —
`setTimeout` with delay −1 · 60 · 1000 = −60000 ms, which fires immediately
and locks the session — rather than making no scheduling call. -/
theorem setupAutoLock_never_still_schedules :
    setupAutoLock (-1) = some (-60000) := rfl

/-- Any failed run of the hook's `unlockVault` leaves the one generic error
message, whatever the cause of failure. -/
theorem unlockVaultRun_failed_error (p : JSString) (m : Option VaultMetadata)
    (e : List EncryptedEntry) (h : (unlockVaultRun p m e).success = false) :
    (unlockVaultRun p m e).error
      = some "Invalid master password or corrupted vault" := by
  cases m with
  | none => rfl
  | some mm =>
    have hred : unlockVaultRun p (some mm) e =
        (match unlockVault p mm e with
         | none => ({ success := false,
                      error := some "Invalid master password or corrupted vault" } :
                     UnlockOutcome)
         | some _ => { success := true, error := none }) := rfl
    rw [hred] at h ⊢
    rcases hu : unlockVault p mm e with _ | v
    · rfl
    · rw [hu] at h
      simp at h

/-- C8: a failed unlock reports one error value identical across failure
causes — any two failing runs of `unlockVault` (wrong password, tampered
envelope, missing envelope, …) produce equal observable error values. -/
theorem unlock_error_no_oracle (p1 p2 : JSString) (m1 m2 : Option VaultMetadata)
    (e1 e2 : List EncryptedEntry)
    (h1 : (unlockVaultRun p1 m1 e1).success = false)
    (h2 : (unlockVaultRun p2 m2 e2).success = false) :
    (unlockVaultRun p1 m1 e1).error = (unlockVaultRun p2 m2 e2).error := by
  rw [unlockVaultRun_failed_error p1 m1 e1 h1,
    unlockVaultRun_failed_error p2 m2 e2 h2]

/-- A stored envelope created with password `h` (104). -/
def sampleMeta : VaultMetadata := (createVault [104] [1] [5] [2]).1

/-- Envelope `sampleMeta` with its wrapped-vault-key ciphertext tampered. -/
def tamperedMeta : VaultMetadata :=
  { salt := [1], encryptedVaultKey := [Char.ofNat 66],
    vaultKeyIv := sampleMeta.vaultKeyIv }

theorem unlock_error_no_oracle_witness :
    (unlockVaultRun [120] (some sampleMeta) []).error
      = (unlockVaultRun [104] (some tamperedMeta) []).error :=
  unlock_error_no_oracle [120] [104] (some sampleMeta) (some tamperedMeta)
    [] [] (by decide) (by decide)

/-! ## Uniformity of `generatePassword`'s index sampling -/

/-- The size of the 32-bit sample space of
`crypto.getRandomValues(new Uint32Array(1))`. -/
def uint32Count : Nat := 4294967296

/-- How many of the 2^32 equally likely random draws select charset index
`r` through `randomIndex`. -/
def indexCount (len r : Nat) : Nat :=
  ((Finset.range uint32Count).filter fun u => randomIndex u len = r).card

/-- The sampled index is uniform over the charset iff every index is
selected by equally many of the 2^32 draws. -/
def uniformIndexing (len : Nat) : Prop :=
  ∀ r1 r2, r1 < len → r2 < len → indexCount len r1 = indexCount len r2

theorem indexCount_88 (r k : Nat) (hr : r < 88)
    (hk : ∀ j, j < k ↔ 88 * j + r < 4294967296) :
    indexCount 88 r = k := by
  have himg : ((Finset.range uint32Count).filter fun u => randomIndex u 88 = r)
      = (Finset.range k).image fun j => 88 * j + r := by
    ext x
    simp only [Finset.mem_filter, Finset.mem_range, Finset.mem_image,
      randomIndex, uint32Count]
    constructor
    · rintro ⟨hx, hmod⟩
      refine ⟨x / 88, (hk _).2 (by omega), ?_⟩
      omega
    · rintro ⟨j, hj, rfl⟩
      have := (hk j).1 hj
      exact ⟨by omega, by omega⟩
  unfold indexCount
  rw [himg, Finset.card_image_of_injective _ ?_, Finset.card_range]
  intro a b hab
  simp only at hab
  omega

/-- C9 (counterexample to uniformity): with symbols included the charset has
88 characters, and reducing a uniform 32-bit value modulo 88 is not uniform:
2^32 = 88 · 48806446 + 48, so indices below 48 receive 48806447 of the 2^32
draws while the rest receive 48806446 (modulo bias). -/
theorem generatePassword_not_uniform : ¬ uniformIndexing (charset true).length := by
  intro h
  have hlen : (charset true).length = 88 := by decide
  rw [hlen] at h
  have h1 : indexCount 88 0 = 48806447 :=
    indexCount_88 0 48806447 (by omega) (by intro j; omega)
  have h2 : indexCount 88 87 = 48806446 :=
    indexCount_88 87 48806446 (by omega) (by intro j; omega)
  have h3 := h 0 87 (by omega) (by omega)
  rw [h1, h2] at h3
  omega

/-- C9 (amended): `generatePassword` returns exactly `length` characters,
each drawn from the declared charset (symbols included exactly when
`includeSymbols` is set); each character is chosen independently (one random
draw per position) but only approximately uniformly, by `u % length` of a
uniform 32-bit `u`. -/
theorem generatePassword_length_charset (length : Nat) (includeSymbols : Bool)
    (randoms : Nat → Nat) :
    (generatePassword length includeSymbols randoms).length = length ∧
    ∀ c ∈ generatePassword length includeSymbols randoms,
      c ∈ charset includeSymbols := by
  constructor
  · simp [generatePassword]
  · intro c hc
    simp only [generatePassword, List.mem_map] at hc
    obtain ⟨i, _, rfl⟩ := hc
    have hpos : 0 < (charset includeSymbols).length := by
      cases includeSymbols <;> decide
    have hlt : randomIndex (randoms i) (charset includeSymbols).length
        < (charset includeSymbols).length := Nat.mod_lt _ hpos
    rw [List.getD_eq_getElem _ _ hlt]
    exact List.getElem_mem hlt

end SecurePassword
